import Mathlib

/-!
Verification of the interview-helper backend core: the CSV-backed record
store (`storage_csv.py`), the credential and session-token services
(`auth.py`), the authentication gate (`deps.py`) and the relevant endpoint
glue (`main.py`), shallowly embedded in Lean.  Machine integers are `Int`
(Python ints are unbounded), timestamps are `Int` instants (Python
`datetime` values are totally ordered and only compared / threaded through
here), and fallible code returns `Except`.
-/

namespace InterviewHelper

/-- Python `max(xs, default=d)`: the maximum element of the list, or `d`
when the list is empty.  (Note this differs from `foldl max d`: the default
is ignored as soon as the list is non-empty.) -/
def pyMaxD (xs : List Int) (d : Int) : Int :=
  match xs with
  | [] => d
  | x :: rest => rest.foldl max x

/-- Python slice `l[:limit]` for an arbitrary integer `limit`: a
non-negative limit keeps the first `limit` elements; a negative limit drops
the last `-limit` elements. -/
def pySlice {α : Type} (l : List α) (limit : Int) : List α :=
  if limit < 0 then l.take (l.length - (-limit).toNat)
  else l.take limit.toNat

/-- Python `s.strip()`: remove leading and trailing whitespace.  (Defined
on the character list so that it evaluates by kernel reduction.) -/
def pyStrip (s : String) : String :=
  ⟨((s.data.dropWhile Char.isWhitespace).reverse.dropWhile
      Char.isWhitespace).reverse⟩

instance {ε α : Type} [DecidableEq ε] [DecidableEq α] :
    DecidableEq (Except ε α)
  | .error e, .error f =>
    if h : e = f then .isTrue (by rw [h])
    else .isFalse (fun hc => h (Except.error.inj hc))
  | .error _, .ok _ => .isFalse (fun hc => Except.noConfusion hc)
  | .ok _, .error _ => .isFalse (fun hc => Except.noConfusion hc)
  | .ok x, .ok y =>
    if h : x = y then .isTrue (by rw [h])
    else .isFalse (fun hc => h (Except.ok.inj hc))

theorem pyMaxD_nil (d : Int) : pyMaxD [] d = d := rfl

theorem pyMaxD_ne_nil {xs : List Int} (h : xs ≠ []) (d d' : Int) :
    pyMaxD xs d = pyMaxD xs d' := by
  cases xs with
  | nil => exact absurd rfl h
  | cons x rest => rfl

theorem pyMaxD_concat (xs : List Int) (x d : Int) :
    pyMaxD (xs ++ [x]) d = max (pyMaxD xs x) x := by
  cases xs with
  | nil => simp [pyMaxD]
  | cons y rest =>
    simp only [pyMaxD, List.cons_append, List.foldl_append, List.foldl_cons,
      List.foldl_nil]

theorem le_foldl_max_self (x : Int) (l : List Int) :
    x ≤ l.foldl max x := by
  induction l generalizing x with
  | nil => simp
  | cons y rest ih =>
    simp only [List.foldl_cons]
    exact le_trans (le_max_left x y) (ih (max x y))

theorem le_foldl_max_of_mem {x : Int} {l : List Int} (h : x ∈ l)
    (a : Int) : x ≤ l.foldl max a := by
  induction l generalizing a with
  | nil => simp at h
  | cons y rest ih =>
    simp only [List.foldl_cons]
    rcases List.mem_cons.mp h with rfl | hx
    · exact le_trans (le_max_right a x) (le_foldl_max_self _ rest)
    · exact ih hx _

theorem le_pyMaxD_of_mem {xs : List Int} {x : Int} (h : x ∈ xs) (d : Int) :
    x ≤ pyMaxD xs d := by
  cases xs with
  | nil => simp at h
  | cons y rest =>
    simp only [pyMaxD]
    rcases List.mem_cons.mp h with rfl | hx
    · exact le_foldl_max_self x rest
    · exact le_foldl_max_of_mem hx y

/-! ## Record store data model (`storage_csv.py`)

A `CsvUser` / `CsvChatItem` mirror the dataclasses of `storage_csv.py`.
`created_at` is an `Int` instant: `datetime` values are totally ordered and
the store only stamps, stores and compares them.  The two CSV files, once
initialised, are modelled by their parsed row lists in a `Store`; the
current wall-clock instant is passed explicitly to each stamping
operation. -/

structure CsvUser where
  id : Int
  username : String
  password_hash : String
  created_at : Int
  deriving DecidableEq, Repr

structure CsvChatItem where
  id : Int
  user_id : Int
  role : String
  content : String
  created_at : Int
  deriving DecidableEq, Repr

structure Store where
  users : List CsvUser
  chats : List CsvChatItem
  deriving DecidableEq, Repr

/-- `get_user_by_username`: linear scan of the users table, first match or
none. -/
def get_user_by_username (s : Store) (username : String) : Option CsvUser :=
  s.users.find? (fun u => u.username == username)

/-- `create_user`: reads the users table, assigns
`next_id = max((u.id for u in users), default=0) + 1`, appends one row
stamped `now`, and returns the new record together with the new store
state. -/
def create_user (s : Store) (username password_hash : String) (now : Int) :
    CsvUser × Store :=
  let next_id := pyMaxD (s.users.map (fun u => u.id)) 0 + 1
  let u : CsvUser := ⟨next_id, username, password_hash, now⟩
  (u, { s with users := s.users ++ [u] })

/-- `append_chat_message`: reads the whole chat table, assigns
`next_id = max((r.id for r in rows), default=0) + 1`, appends one row
stamped `now`. -/
def append_chat_message (s : Store) (user_id : Int) (role content : String)
    (now : Int) : Store :=
  let next_id := pyMaxD (s.chats.map (fun r => r.id)) 0 + 1
  { s with chats := s.chats ++ [⟨next_id, user_id, role, content, now⟩] }

/-- Sort key comparison used by `get_chat_history`:
`rows.sort(key=lambda x: (x.created_at, x.id))`, i.e. lexicographic on the
pair `(created_at, id)`. -/
def chatLE (a b : CsvChatItem) : Prop :=
  a.created_at < b.created_at ∨ (a.created_at = b.created_at ∧ a.id ≤ b.id)

instance : DecidableRel chatLE := fun a b => by
  unfold chatLE; infer_instance

instance : IsTotal CsvChatItem chatLE where
  total a b := by
    unfold chatLE
    rcases lt_trichotomy a.created_at b.created_at with h | h | h
    · exact Or.inl (Or.inl h)
    · rcases le_total a.id b.id with h2 | h2
      · exact Or.inl (Or.inr ⟨h, h2⟩)
      · exact Or.inr (Or.inr ⟨h.symm, h2⟩)
    · exact Or.inr (Or.inl h)

instance : IsTrans CsvChatItem chatLE where
  trans a b c hab hbc := by
    unfold chatLE at *
    rcases hab with h1 | ⟨e1, l1⟩
    · rcases hbc with h2 | ⟨e2, _⟩
      · exact Or.inl (lt_trans h1 h2)
      · exact Or.inl (e2 ▸ h1)
    · rcases hbc with h2 | ⟨e2, l2⟩
      · exact Or.inl (e1 ▸ h2)
      · exact Or.inr ⟨e1.trans e2, le_trans l1 l2⟩

/-- `get_chat_history`: full scan filtered by `user_id`, stably sorted by
`(created_at, id)` (Python `list.sort` is stable; a stable sort is embedded
here as insertion sort by the same key), then Python-sliced `rows[:limit]`.
-/
def get_chat_history (s : Store) (user_id : Int) (limit : Int) :
    List CsvChatItem :=
  let rows := s.chats.filter (fun r => r.user_id == user_id)
  pySlice (List.insertionSort chatLE rows) limit

/-- Modelled from the spec: `listChatHistory(user_id, limit)` as the spec
words it — filter by `user_id`, sort ascending by `(created_at, id)`,
truncate to the *first `limit` entries* after sorting.  A second,
spec-side definition to compare with `get_chat_history` (which uses Python
slice semantics). -/
def listChatHistorySpec (s : Store) (user_id : Int) (limit : Int) :
    List CsvChatItem :=
  (List.insertionSort chatLE (s.chats.filter (fun r => r.user_id == user_id))).take
    limit.toNat

/-! ## Table initialisation (`init_storage`)

`init_storage` is about file existence and headers, one level below the
row model: a data directory holds, for each table, either no file or a file
with a header line and data rows. -/

structure CsvTableFile where
  header : List String
  dataRows : List (List String)
  deriving DecidableEq, Repr

structure DataDir where
  usersFile : Option CsvTableFile
  chatsFile : Option CsvTableFile
  deriving DecidableEq, Repr

def usersFieldnames : List String :=
  ["id", "username", "password_hash", "created_at"]

def chatsFieldnames : List String :=
  ["id", "user_id", "role", "content", "created_at"]

/-- `init_storage`: for each of the two table files, if it does not exist,
create it containing only the header row; otherwise leave it untouched. -/
def init_storage (d : DataDir) : DataDir :=
  { usersFile :=
      match d.usersFile with
      | none => some ⟨usersFieldnames, []⟩
      | some f => some f
    chatsFile :=
      match d.chatsFile with
      | none => some ⟨chatsFieldnames, []⟩
      | some f => some f }

/-! ## Session token service (`auth.py` over `jose.jwt`)

Modelled from the spec at the library boundary: `jose.jwt` signs a claim
set with a server-held secret (HMAC).  The MAC is embedded as the pair
(key, payload) recorded at signing time, which `jwt.decode` recomputes and
compares; `jwt.decode` also rejects tokens whose `exp` has passed
(`ExpiredSignatureError`, a subclass of `JWTError`) and raw strings that do
not parse as a token at all.  The claim set carries `sub` as an optional
string (`payload.get("sub")` yields `None` when absent). -/

structure JwtPayload where
  sub : Option String
  exp : Int
  iat : Int
  deriving DecidableEq, Repr

structure JwtToken where
  payload : JwtPayload
  sigKey : String
  sigPayload : JwtPayload
  deriving DecidableEq, Repr

/-- A wire-level token: either a structurally well-formed signed token or a
string that does not parse as one. -/
inductive TokenWire where
  | tok (t : JwtToken)
  | garbage (raw : String)
  deriving DecidableEq, Repr

/-- `jwt.encode(payload, key)`: serialise the claim set with its MAC. -/
def jwt_encode (key : String) (p : JwtPayload) : JwtToken :=
  ⟨p, key, p⟩

/-- The single error kind `jose` raises on any verification failure
(`JWTError`; expiry raises its subclass `ExpiredSignatureError`). -/
inductive JoseError where
  | jwtError
  deriving DecidableEq, Repr

/-- `jwt.decode(token, key, algorithms)`: fail on malformed input, on a MAC
that does not recompute, and on `exp < now`; otherwise return the claim
set. -/
def jwt_decode (key : String) (now : Int) (w : TokenWire) :
    Except JoseError JwtPayload :=
  match w with
  | .garbage _ => .error .jwtError
  | .tok t =>
    if t.sigKey = key ∧ t.sigPayload = t.payload then
      if t.payload.exp < now then .error .jwtError
      else .ok t.payload
    else .error .jwtError

/-- Python exception value escaping `decode_token`: a `ValueError` carrying
a message. -/
inductive PyError where
  | valueError (msg : String)
  deriving DecidableEq, Repr

/-- `create_access_token(subject)`: claim set
`sub = subject, exp = now + jwt_expire_minutes * 60, iat = now`, signed
with the configured secret; returns the token and the lifetime in whole
seconds.  The configured secret and lifetime are parameters (the spec's
external secret-configuration provider). -/
def create_access_token (key : String) (expire_minutes : Int) (now : Int)
    (subject : String) : JwtToken × Int :=
  let expires_at := now + expire_minutes * 60
  (jwt_encode key ⟨some subject, expires_at, now⟩, expire_minutes * 60)

/-- `decode_token(token)`: any `JWTError` becomes
`ValueError("Invalid token")`; an absent or empty `sub` claim becomes
`ValueError("Invalid token payload")`; otherwise the subject is returned.
-/
def decode_token (key : String) (now : Int) (w : TokenWire) :
    Except PyError String :=
  match jwt_decode key now w with
  | .error _ => .error (.valueError "Invalid token")
  | .ok payload =>
    match payload.sub with
    | none => .error (.valueError "Invalid token payload")
    | some s =>
      if s = "" then .error (.valueError "Invalid token payload")
      else .ok s

/-! ## Credential service (`auth.py` over `passlib` pbkdf2_sha256)

Modelled from the spec at the library boundary: `passlib`'s
`pbkdf2_sha256` draws a fresh random salt per `hash` call and embeds it in
the opaque output (`$pbkdf2-sha256$rounds$salt$digest`); `verify` re-runs
the key-derivation function with the embedded salt and compares digests.
The key-derivation function itself and the salt drawn are parameters. -/

structure PwHash where
  salt : String
  digest : String
  deriving DecidableEq, Repr

/-- `hash_password` = `pwd_context.hash`: derive a digest from the drawn
salt and the password and embed the salt in the opaque output. -/
def hash_password (kdf : String → String → String) (salt password : String) :
    PwHash :=
  ⟨salt, kdf salt password⟩

/-- `verify_password` = `pwd_context.verify`: recompute with the embedded
salt and compare digests. -/
def verify_password (kdf : String → String → String) (password : String)
    (h : PwHash) : Bool :=
  kdf h.salt password == h.digest

/-! ## Authentication gate (`deps.py`) -/

structure HTTPExc where
  status_code : Nat
  detail : String
  deriving DecidableEq, Repr

/-- `get_current_user`: 401 "Missing access token" when no bearer
credential is supplied; any `decode_token` failure becomes 401
"Invalid or expired token"; a verified subject with no user record becomes
401 "User not found"; otherwise the full stored `CsvUser` record is
returned. -/
def get_current_user (key : String) (now : Int) (s : Store)
    (credentials : Option TokenWire) : Except HTTPExc CsvUser :=
  match credentials with
  | none => .error ⟨401, "Missing access token"⟩
  | some cred =>
    match decode_token key now cred with
    | .error _ => .error ⟨401, "Invalid or expired token"⟩
    | .ok username =>
      match get_user_by_username s username with
      | none => .error ⟨401, "User not found"⟩
      | some user => .ok user

/-- Modelled from the spec: the Identity the spec describes — "the resolved
User record (minus password hash)".  Spec-side definition, to compare with
what `get_current_user` actually returns. -/
def stripPasswordHash (u : CsvUser) : CsvUser :=
  { u with password_hash := "" }

/-! ## Endpoint glue (`main.py`) -/

structure UserResponse where
  id : Int
  username : String
  created_at : Int
  deriving DecidableEq, Repr

/-- `signup`: strips username and password (Python `str.strip`, embedded as
`pyStrip`), rejects an empty username and a password shorter than 6
characters, rejects an already-existing username with 400
"Username already exists" *before* any storage append, and otherwise
hashes the password and creates the user.  The password-hashing function
(and the salt it draws) and the clock are passed explicitly; the
post-state of the store is returned alongside the response so that the
error paths are visibly state-preserving. -/
def signup (hash : String → String) (now : Int) (s : Store)
    (username password : String) : Except HTTPExc UserResponse × Store :=
  let u := pyStrip username
  let p := pyStrip password
  if u = "" then
    (.error ⟨400, "Username is required"⟩, s)
  else if p.length < 6 then
    (.error ⟨400, "Password must be at least 6 characters"⟩, s)
  else
    match get_user_by_username s u with
    | some _ => (.error ⟨400, "Username already exists"⟩, s)
    | none =>
      let r := create_user s u (hash p) now
      (.ok ⟨r.1.id, r.1.username, r.1.created_at⟩, r.2)

/-- Default of the `limit` query parameter of `GET /chat/history`. -/
def chat_history_default_limit : Int := 50

/-- `chat_history` endpoint body:
`safe_limit = min(max(limit, 1), 200)` and then the store query with the
clamped limit. -/
def chat_history (s : Store) (user_id : Int) (limit : Int) :
    List CsvChatItem :=
  let safe_limit := min (max limit 1) 200
  get_chat_history s user_id safe_limit

/-- Number of user rows carrying a given username. -/
def countUsername (s : Store) (username : String) : Nat :=
  s.users.countP (fun u => u.username == username)

/-- A sequence of `create_user` calls, one per `(username, password_hash)`
request, threading the store and a strictly advancing clock. -/
def create_user_seq (s : Store) (reqs : List (String × String)) (now : Int) :
    List CsvUser × Store :=
  match reqs with
  | [] => ([], s)
  | (u, h) :: rest =>
    let r := create_user s u h now
    let rr := create_user_seq r.2 rest (now + 1)
    (r.1 :: rr.1, rr.2)

/-- Consecutive ids `m + 1, m + 2, ..., m + k`. -/
def idRange (m : Int) (k : Nat) : List Int :=
  (List.range k).map (fun i => m + 1 + Int.ofNat i)

/-! ## Interleaving model of concurrent `append_chat_message` (C8)

`append_chat_message` holds the single module-level `threading.Lock` for
its whole body: read the table, compute `next_id`, append.  The model
below splits that body into its micro-steps — acquire, read (compute
`next_id` from the current rows), write (append the row), release — and
lets an arbitrary scheduler interleave `n` caller threads.  A thread
scheduled when its next step is not enabled (lock held by someone else, or
already finished) simply does not advance, which is how a blocked
`Lock.acquire` behaves. -/

/-- Per-thread state: program counter 0 (before acquire), 1 (holds lock,
before read), 2 (read done, `nid` holds the computed next id), 3 (row
written, before release), 4 (done). -/
structure ThreadState where
  pc : Nat
  nid : Int
  deriving DecidableEq, Repr

/-- Global state: lock owner, per-thread states, chat rows, and a clock
that advances at each append (the external wall clock `_now_iso` reads). -/
structure AppendState (n : Nat) where
  lock : Option (Fin n)
  ts : Fin n → ThreadState
  rows : List CsvChatItem
  clock : Int

/-- One scheduler step: thread `t` runs its next micro-step if enabled.
`reqs t` is the `(user_id, role, content)` argument triple of caller `t`.
-/
def appendStep {n : Nat} (reqs : Fin n → Int × String × String)
    (g : AppendState n) (t : Fin n) : AppendState n :=
  let st := g.ts t
  match st.pc with
  | 0 =>
    match g.lock with
    | none => { g with lock := some t, ts := Function.update g.ts t ⟨1, st.nid⟩ }
    | some _ => g
  | 1 =>
    if g.lock = some t then
      { g with
        ts := Function.update g.ts t
          ⟨2, pyMaxD (g.rows.map (fun r => r.id)) 0 + 1⟩ }
    else g
  | 2 =>
    if g.lock = some t then
      { g with
        ts := Function.update g.ts t ⟨3, st.nid⟩
        rows := g.rows ++
          [⟨st.nid, (reqs t).1, (reqs t).2.1, (reqs t).2.2, g.clock⟩]
        clock := g.clock + 1 }
    else g
  | 3 =>
    if g.lock = some t then
      { g with lock := none, ts := Function.update g.ts t ⟨4, st.nid⟩ }
    else g
  | _ => g

/-- Run a whole schedule (list of thread choices). -/
def appendRun {n : Nat} (reqs : Fin n → Int × String × String)
    (g : AppendState n) (sched : List (Fin n)) : AppendState n :=
  sched.foldl (appendStep reqs) g

/-- Initial state: lock free, every thread before its acquire, chat table
`r0`, clock `c0`. -/
def appendInit (n : Nat) (r0 : List CsvChatItem) (c0 : Int) :
    AppendState n :=
  ⟨none, fun _ => ⟨0, 0⟩, r0, c0⟩

/-- Number of threads that have performed their write. -/
def writtenCount {n : Nat} (g : AppendState n) : Nat :=
  (Finset.univ.filter (fun t => 3 ≤ (g.ts t).pc)).card

/-! ## Theorems -/

/-- C6: `initialize()` is idempotent: when a table file is absent it
creates it containing only the header row, and when called on an
already-populated store (in particular, called twice) it leaves every
existing row untouched. -/
theorem init_storage_idempotent (d : DataDir) :
    init_storage (init_storage d) = init_storage d ∧
    (∀ f, d.usersFile = some f → (init_storage d).usersFile = some f) ∧
    (∀ f, d.chatsFile = some f → (init_storage d).chatsFile = some f) ∧
    (d.usersFile = none →
      (init_storage d).usersFile = some ⟨usersFieldnames, []⟩) ∧
    (d.chatsFile = none →
      (init_storage d).chatsFile = some ⟨chatsFieldnames, []⟩) := by
  refine ⟨?_, ?_, ?_, ?_, ?_⟩ <;>
    cases hu : d.usersFile <;> cases hc : d.chatsFile <;>
      simp [init_storage, hu, hc]

/-- Witness for C6: a populated users table survives two `initialize()`
calls untouched, and an absent chats table is created with the header row
only. -/
theorem init_storage_idempotent_witness :
    init_storage (init_storage
        ⟨some ⟨usersFieldnames, [["1", "alice", "h", "0"]]⟩, none⟩) =
      init_storage
        ⟨some ⟨usersFieldnames, [["1", "alice", "h", "0"]]⟩, none⟩ ∧
    (init_storage
        ⟨some ⟨usersFieldnames, [["1", "alice", "h", "0"]]⟩, none⟩).usersFile =
      some ⟨usersFieldnames, [["1", "alice", "h", "0"]]⟩ ∧
    (init_storage
        ⟨some ⟨usersFieldnames, [["1", "alice", "h", "0"]]⟩, none⟩).chatsFile =
      some ⟨chatsFieldnames, []⟩ := by
  have h := init_storage_idempotent
    ⟨some ⟨usersFieldnames, [["1", "alice", "h", "0"]]⟩, none⟩
  exact ⟨h.1, h.2.1 _ rfl, h.2.2.2.2 rfl⟩

/-- C3: issuing a token via `create_access_token(subject)` and decoding it
with the same secret before its `exp` elapses returns exactly the subject,
and the claim set carries `sub = subject`, `iat = now`,
`exp = now + configured lifetime` (in seconds). -/
theorem issue_then_verify_roundtrip (key : String) (mins now vt : Int)
    (subject : String) (hsub : subject ≠ "")
    (hvt : vt < now + mins * 60) :
    decode_token key vt
        (.tok (create_access_token key mins now subject).1) = .ok subject ∧
    (create_access_token key mins now subject).1.payload =
      ⟨some subject, now + mins * 60, now⟩ ∧
    (create_access_token key mins now subject).2 = mins * 60 := by
  have hexp : ¬ (now + mins * 60 < vt) := by omega
  refine ⟨?_, rfl, rfl⟩
  simp [decode_token, jwt_decode, create_access_token, jwt_encode, hexp,
    hsub]

/-- Witness for C3: a concrete 30-minute token issued at instant 0 and
verified at instant 100 round-trips the subject "alice". -/
theorem issue_then_verify_roundtrip_witness :
    decode_token "k" 100
        (.tok (create_access_token "k" 30 0 "alice").1) = .ok "alice" ∧
    (create_access_token "k" 30 0 "alice").1.payload =
      ⟨some "alice", 1800, 0⟩ := by
  have h := issue_then_verify_roundtrip "k" 30 0 100 "alice" (by decide)
    (by norm_num)
  exact ⟨h.1, h.2.1⟩

/-- C4: `decode_token` fails — never the subject, never a crash — whenever
the signature does not recompute, the token is malformed, `exp` has
passed, or the `sub` claim is absent or empty; every such failure escapes
as the single `ValueError` exception kind. -/
theorem decode_token_failures_single_kind (key : String) (now : Int)
    (w : TokenWire)
    (hfail :
      (∃ raw, w = .garbage raw) ∨
      (∃ t, w = .tok t ∧ ¬(t.sigKey = key ∧ t.sigPayload = t.payload)) ∨
      (∃ t, w = .tok t ∧ t.payload.exp < now) ∨
      (∃ t, w = .tok t ∧
        (t.payload.sub = none ∨ t.payload.sub = some ""))) :
    (∃ msg, decode_token key now w = .error (.valueError msg)) ∧
    ∀ s : String, decode_token key now w ≠ .ok s := by
  have herr : ∃ msg, decode_token key now w = .error (.valueError msg) := by
    rcases hfail with ⟨raw, rfl⟩ | ⟨t, rfl, hsig⟩ | ⟨t, rfl, hexp⟩ |
        ⟨t, rfl, hsub⟩
    · exact ⟨"Invalid token", rfl⟩
    · exact ⟨"Invalid token", by simp [decode_token, jwt_decode, hsig]⟩
    · by_cases hsig : t.sigKey = key ∧ t.sigPayload = t.payload
      · exact ⟨"Invalid token", by simp [decode_token, jwt_decode, hsig, hexp]⟩
      · exact ⟨"Invalid token", by simp [decode_token, jwt_decode, hsig]⟩
    · by_cases hsig : t.sigKey = key ∧ t.sigPayload = t.payload
      · by_cases hexp : t.payload.exp < now
        · exact ⟨"Invalid token",
            by simp [decode_token, jwt_decode, hsig, hexp]⟩
        · refine ⟨"Invalid token payload", ?_⟩
          rcases hsub with hs | hs <;>
            simp [decode_token, jwt_decode, hsig, hexp, hs]
      · exact ⟨"Invalid token", by simp [decode_token, jwt_decode, hsig]⟩
  refine ⟨herr, ?_⟩
  obtain ⟨msg, hmsg⟩ := herr
  intro s hs
  rw [hmsg] at hs
  exact Except.noConfusion hs

/-- Witness for C4: a concrete well-signed token whose `exp = 10` has
passed by instant 100 is rejected with the single `ValueError` kind and
never yields the subject. -/
theorem decode_token_failures_single_kind_witness :
    (∃ msg, decode_token "k" 100
        (.tok ⟨⟨some "alice", 10, 0⟩, "k", ⟨some "alice", 10, 0⟩⟩) =
      .error (.valueError msg)) ∧
    ∀ s : String, decode_token "k" 100
        (.tok ⟨⟨some "alice", 10, 0⟩, "k", ⟨some "alice", 10, 0⟩⟩) ≠
      .ok s :=
  decode_token_failures_single_kind "k" 100
    (.tok ⟨⟨some "alice", 10, 0⟩, "k", ⟨some "alice", 10, 0⟩⟩)
    (Or.inr (Or.inr (Or.inl ⟨_, rfl, by norm_num⟩)))

/-- C7: for every non-empty password `p`, `verify(p, hash(p))` is true;
for a collision-free key-derivation function and `p2 ≠ p`,
`verify(p2, hash(p))` is false; and hashes of `p` under two distinct
fresh salts are different opaque outputs that both verify against `p`. -/
theorem hash_then_verify_properties (kdf : String → String → String)
    (salt salt2 p p2 : String) (hp : p ≠ "")
    (hinj : ∀ s a b, kdf s a = kdf s b → a = b)
    (hne : p2 ≠ p) (hsalt : salt ≠ salt2) :
    verify_password kdf p (hash_password kdf salt p) = true ∧
    verify_password kdf p2 (hash_password kdf salt p) = false ∧
    hash_password kdf salt p ≠ hash_password kdf salt2 p ∧
    verify_password kdf p (hash_password kdf salt2 p) = true := by
  refine ⟨?_, ?_, ?_, ?_⟩
  · simp [verify_password, hash_password]
  · simp only [verify_password, hash_password, beq_eq_false_iff_ne, ne_eq]
    exact fun h => hne (hinj _ _ _ h)
  · intro h
    exact hsalt (congrArg PwHash.salt h)
  · simp [verify_password, hash_password]

/-- Witness for C7 at a concrete collision-free derivation function,
salts "s1" and "s2", password "secret1" and distinct probe "other12". -/
theorem hash_then_verify_properties_witness :
    verify_password (fun _ q => q) "secret1"
        (hash_password (fun _ q => q) "s1" "secret1") = true ∧
    verify_password (fun _ q => q) "other12"
        (hash_password (fun _ q => q) "s1" "secret1") = false ∧
    hash_password (fun _ q => q) "s1" "secret1" ≠
      hash_password (fun _ q => q) "s2" "secret1" ∧
    verify_password (fun _ q => q) "secret1"
        (hash_password (fun _ q => q) "s2" "secret1") = true :=
  hash_then_verify_properties (fun _ q => q) "s1" "s2" "secret1" "other12"
    (by decide) (fun _ _ _ h => h) (by decide) (by decide)

/-- C10: the `/chat/history` endpoint clamps the caller-supplied limit
into `[1, 200]` before querying the store — any limit below 1 behaves as
1, any limit above 200 behaves as 200, the default is 50 — and the
clamped (hence positive) limit means the query is the plain
take-the-first-k semantics, never the raw negative-slice behavior. -/
theorem chat_history_clamps_limit (s : Store) (uid limit : Int) :
    1 ≤ min (max limit 1) 200 ∧ min (max limit 1) 200 ≤ 200 ∧
    (limit < 1 → chat_history s uid limit = chat_history s uid 1) ∧
    (200 < limit → chat_history s uid limit = chat_history s uid 200) ∧
    chat_history s uid limit =
      listChatHistorySpec s uid (min (max limit 1) 200) ∧
    chat_history_default_limit = 50 := by
  have h1 : (1 : Int) ≤ min (max limit 1) 200 :=
    le_min (le_max_right limit 1) (by norm_num)
  refine ⟨h1, min_le_right _ _, ?_, ?_, ?_, rfl⟩
  · intro hlt
    have : max limit 1 = 1 := max_eq_right (le_of_lt hlt)
    simp [chat_history, this]
  · intro hgt
    have h2 : max limit 1 = limit := max_eq_left (by omega)
    have h3 : min limit 200 = 200 := min_eq_right (by omega)
    simp [chat_history, h2, h3]
  · have h0 : ¬ (min (max limit 1) 200 < 0) := by omega
    simp [chat_history, get_chat_history, listChatHistorySpec, pySlice, h0]

/-- Witness for C10: a concrete store and the out-of-range limits `-5` and
`1000` behave as `1` and `200` respectively. -/
theorem chat_history_clamps_limit_witness :
    chat_history ⟨[], [⟨1, 1, "user", "a", 10⟩, ⟨2, 1, "assistant", "b", 11⟩]⟩
        1 (-5) =
      chat_history ⟨[], [⟨1, 1, "user", "a", 10⟩, ⟨2, 1, "assistant", "b", 11⟩]⟩
        1 1 ∧
    chat_history ⟨[], [⟨1, 1, "user", "a", 10⟩, ⟨2, 1, "assistant", "b", 11⟩]⟩
        1 1000 =
      chat_history ⟨[], [⟨1, 1, "user", "a", 10⟩, ⟨2, 1, "assistant", "b", 11⟩]⟩
        1 200 ∧
    chat_history_default_limit = 50 := by
  refine ⟨?_, ?_, rfl⟩
  · exact (chat_history_clamps_limit
      ⟨[], [⟨1, 1, "user", "a", 10⟩, ⟨2, 1, "assistant", "b", 11⟩]⟩ 1
      (-5)).2.2.1 (by norm_num)
  · exact (chat_history_clamps_limit
      ⟨[], [⟨1, 1, "user", "a", 10⟩, ⟨2, 1, "assistant", "b", 11⟩]⟩ 1
      1000).2.2.2.1 (by norm_num)

/-- C9: a signup whose (stripped) username case-sensitively equals an
existing record's username is rejected with the conflict error before any
storage append — the store is returned unchanged, so it still holds
exactly as many rows for that username as before — while the store-level
`create_user` itself performs no uniqueness re-check and would append a
duplicate row. -/
theorem signup_conflict_before_append (hash : String → String) (now : Int)
    (s : Store) (username password : String) (ex : CsvUser)
    (hu : pyStrip username ≠ "")
    (hplen : 6 ≤ (pyStrip password).length)
    (hex : get_user_by_username s (pyStrip username) = some ex) :
    signup hash now s username password =
      (.error ⟨400, "Username already exists"⟩, s) ∧
    countUsername (signup hash now s username password).2
        (pyStrip username) =
      countUsername s (pyStrip username) ∧
    ∀ h2 now2, (create_user s (pyStrip username) h2 now2).2.users =
      s.users ++ [⟨pyMaxD (s.users.map (fun u => u.id)) 0 + 1,
        pyStrip username, h2, now2⟩] := by
  have hp6 : ¬ ((pyStrip password).length < 6) := not_lt.mpr hplen
  have hmain : signup hash now s username password =
      (.error ⟨400, "Username already exists"⟩, s) := by
    simp [signup, hu, hp6, hex]
  exact ⟨hmain, by rw [hmain], fun h2 now2 => rfl⟩

/-- Witness for C9: with "alice" already stored, a second signup
`"alice"/"other12"` is the conflict error, the store still holds exactly
one "alice" row, and a raw `create_user` would have appended a duplicate
"alice" row with id 2. -/
theorem signup_conflict_before_append_witness :
    signup (fun p => p ++ "#") 7 ⟨[⟨1, "alice", "H", 0⟩], []⟩
        "alice" "other12" =
      (.error ⟨400, "Username already exists"⟩,
        ⟨[⟨1, "alice", "H", 0⟩], []⟩) ∧
    countUsername
        (signup (fun p => p ++ "#") 7 ⟨[⟨1, "alice", "H", 0⟩], []⟩
          "alice" "other12").2 "alice" = 1 ∧
    (create_user ⟨[⟨1, "alice", "H", 0⟩], []⟩ (pyStrip "alice") "H2"
        7).2.users =
      [⟨1, "alice", "H", 0⟩, ⟨2, "alice", "H2", 7⟩] := by
  have h := signup_conflict_before_append (fun p => p ++ "#") 7
    ⟨[⟨1, "alice", "H", 0⟩], []⟩ "alice" "other12" ⟨1, "alice", "H", 0⟩
    (by decide) (by decide) (by decide)
  refine ⟨h.1, ?_, (h.2.2 "H2" 7).trans (by decide)⟩
  rw [h.1]
  decide

/-- The claim that `get_current_user` returns the User record *minus the
password hash* is false on the code: at a concrete store and a valid
token, the returned Identity still carries the stored password hash. -/
theorem get_current_user_keeps_hash_cex :
    get_current_user "k" 5 ⟨[⟨1, "alice", "h4sh", 3⟩], []⟩
        (some (.tok ⟨⟨some "alice", 100, 0⟩, "k", ⟨some "alice", 100, 0⟩⟩)) =
      .ok ⟨1, "alice", "h4sh", 3⟩ ∧
    (⟨1, "alice", "h4sh", 3⟩ : CsvUser) ≠
      stripPasswordHash ⟨1, "alice", "h4sh", 3⟩ := by
  refine ⟨?_, ?_⟩
  · rfl
  · decide

/-- C5 (amended): `resolve` fails 401 "Missing access token" when the
credential is absent, maps every token-verification failure to the single
401 "Invalid or expired token", fails 401 "User not found" when the
verified subject has no user record, and on success returns the resolved
User record as stored — including its password hash (only the HTTP
response serialization of the endpoints omits it). -/
theorem get_current_user_spec (key : String) (now : Int) (s : Store)
    (cred : Option TokenWire) :
    (cred = none →
      get_current_user key now s cred =
        .error ⟨401, "Missing access token"⟩) ∧
    (∀ w e, cred = some w → decode_token key now w = .error e →
      get_current_user key now s cred =
        .error ⟨401, "Invalid or expired token"⟩) ∧
    (∀ w uname, cred = some w → decode_token key now w = .ok uname →
      get_user_by_username s uname = none →
      get_current_user key now s cred = .error ⟨401, "User not found"⟩) ∧
    (∀ w uname u, cred = some w → decode_token key now w = .ok uname →
      get_user_by_username s uname = some u →
      get_current_user key now s cred = .ok u) := by
  refine ⟨?_, ?_, ?_, ?_⟩
  · intro h
    subst h
    rfl
  · intro w e h hw
    subst h
    simp [get_current_user, hw]
  · intro w uname h hw hu
    subst h
    simp [get_current_user, hw, hu]
  · intro w uname u h hw hu
    subst h
    simp [get_current_user, hw, hu]

/-- Witness for C5: the absent-credential case and a concrete successful
resolution through a valid token. -/
theorem get_current_user_spec_witness :
    get_current_user "k" 5 ⟨[⟨1, "alice", "h4sh", 3⟩], []⟩ none =
      .error ⟨401, "Missing access token"⟩ ∧
    get_current_user "k" 5 ⟨[⟨1, "alice", "h4sh", 3⟩], []⟩
        (some (.tok ⟨⟨some "alice", 100, 0⟩, "k",
          ⟨some "alice", 100, 0⟩⟩)) =
      .ok ⟨1, "alice", "h4sh", 3⟩ ∧
    get_current_user "k" 5 ⟨[⟨1, "alice", "h4sh", 3⟩], []⟩
        (some (.garbage "zzz")) =
      .error ⟨401, "Invalid or expired token"⟩ := by
  refine ⟨?_, ?_, ?_⟩
  · exact (get_current_user_spec "k" 5 ⟨[⟨1, "alice", "h4sh", 3⟩], []⟩
      none).1 rfl
  · exact (get_current_user_spec "k" 5 ⟨[⟨1, "alice", "h4sh", 3⟩], []⟩
      (some (.tok ⟨⟨some "alice", 100, 0⟩, "k",
        ⟨some "alice", 100, 0⟩⟩))).2.2.2
      _ "alice" ⟨1, "alice", "h4sh", 3⟩ rfl (by decide) (by decide)
  · exact (get_current_user_spec "k" 5 ⟨[⟨1, "alice", "h4sh", 3⟩], []⟩
      (some (.garbage "zzz"))).2.1 _ (.valueError "Invalid token") rfl rfl

theorem idRange_zero (m : Int) : idRange m 0 = [] := rfl

theorem idRange_cons (m : Int) (k : Nat) :
    idRange m (k + 1) = (m + 1) :: idRange (m + 1) k := by
  simp only [idRange, List.range_succ_eq_map, List.map_cons, List.map_map]
  congr 1
  · show m + 1 + Int.ofNat 0 = m + 1
    simp only [Int.ofNat_eq_natCast]
    omega
  · apply List.map_congr_left
    intro i _
    simp only [Function.comp_apply, Int.ofNat_eq_natCast]
    omega

theorem idRange_concat (m : Int) (k : Nat) :
    idRange m (k + 1) = idRange m k ++ [m + 1 + Int.ofNat k] := by
  simp [idRange, List.range_succ]

theorem idRange_head? (m : Int) (k : Nat) (h : k ≠ 0) :
    (idRange m k).head? = some (m + 1) := by
  cases k with
  | zero => exact absurd rfl h
  | succ k' => rw [idRange_cons]; rfl

theorem chain'_idRange (k : Nat) : ∀ m : Int,
    List.Chain' (fun a b => b = a + 1) (idRange m k) := by
  induction k with
  | zero => intro m; simp [idRange]
  | succ k' ih =>
    intro m
    rw [idRange_cons]
    apply List.chain'_cons'.mpr
    refine ⟨?_, ih (m + 1)⟩
    intro b hb
    cases k' with
    | zero => simp [idRange] at hb
    | succ k'' =>
      rw [idRange_cons] at hb
      simp only [List.head?_cons, Option.mem_def, Option.some.injEq] at hb
      omega

theorem nodup_idRange (m : Int) (k : Nat) : (idRange m k).Nodup := by
  unfold idRange
  apply List.Nodup.map
  · intro a b hab
    simp only [Int.ofNat_eq_natCast] at hab
    omega
  · exact List.nodup_range k

/-- The id of the record `create_user` returns is
`max(existing ids, default 0) + 1`. -/
theorem create_user_id (s : Store) (u h : String) (now : Int) :
    (create_user s u h now).1.id =
      pyMaxD (s.users.map (fun x => x.id)) 0 + 1 := rfl

/-- After `create_user`, the running maximum id advances by exactly one. -/
theorem create_user_max (s : Store) (u h : String) (now : Int) :
    pyMaxD ((create_user s u h now).2.users.map (fun x => x.id)) 0 =
      pyMaxD (s.users.map (fun x => x.id)) 0 + 1 := by
  unfold create_user
  simp only [List.map_append, List.map_cons, List.map_nil]
  rw [pyMaxD_concat]
  rcases eq_or_ne (s.users.map (fun x => x.id)) [] with h0 | h0
  · rw [h0]
    simp [pyMaxD]
  · rw [pyMaxD_ne_nil h0 _ 0]
    exact max_eq_right (by omega)

theorem create_user_seq_ids_users : ∀ (reqs : List (String × String))
    (s : Store) (now : Int),
    (create_user_seq s reqs now).1.map (fun u => u.id) =
      idRange (pyMaxD (s.users.map (fun u => u.id)) 0) reqs.length ∧
    (create_user_seq s reqs now).2.users =
      s.users ++ (create_user_seq s reqs now).1 := by
  intro reqs
  induction reqs with
  | nil => intro s now; simp [create_user_seq, idRange]
  | cons r rest ih =>
    intro s now
    obtain ⟨ih1, ih2⟩ := ih (create_user s r.1 r.2 now).2 (now + 1)
    constructor
    · show ((create_user s r.1 r.2 now).1 ::
          (create_user_seq (create_user s r.1 r.2 now).2 rest (now + 1)).1).map
            (fun u => u.id) = _
      rw [List.map_cons, ih1, create_user_max, create_user_id,
        List.length_cons, idRange_cons]
    · show (create_user_seq (create_user s r.1 r.2 now).2 rest (now + 1)).2.users =
        s.users ++ ((create_user s r.1 r.2 now).1 ::
          (create_user_seq (create_user s r.1 r.2 now).2 rest (now + 1)).1)
      rw [ih2]
      show (s.users ++ [(create_user s r.1 r.2 now).1]) ++ _ = _
      rw [List.append_assoc]
      rfl

theorem create_user_seq_usernames : ∀ (reqs : List (String × String))
    (s : Store) (now : Int),
    (create_user_seq s reqs now).1.map (fun u => u.username) =
      reqs.map Prod.fst := by
  intro reqs
  induction reqs with
  | nil => intro s now; rfl
  | cons r rest ih =>
    intro s now
    show (create_user s r.1 r.2 now).1.username ::
        (create_user_seq (create_user s r.1 r.2 now).2 rest (now + 1)).1.map
          (fun u => u.username) = r.1 :: rest.map Prod.fst
    rw [ih]
    rfl

theorem find_username_of_mem {l : List CsvUser} {name : String}
    (hx : ∃ x ∈ l, x.username = name) :
    ∃ r, l.find? (fun u => u.username == name) = some r ∧
      r.username = name := by
  obtain ⟨x, hmem, hxn⟩ := hx
  have hsome : (l.find? (fun u => u.username == name)).isSome :=
    List.find?_isSome.mpr ⟨x, hmem, by simp [hxn]⟩
  obtain ⟨r, hr⟩ := Option.isSome_iff_exists.mp hsome
  refine ⟨r, hr, ?_⟩
  have := List.find?_some hr
  simpa using this

/-- C1: a sequence of `create_user` calls with distinct usernames assigns,
call by call, `max(existing ids) + 1`, so the new ids are the consecutive
range `m + 1, ..., m + n` above the prior maximum `m` (strictly increasing
with no gaps, starting at 1 on an empty table), the new rows are appended
in order, and afterward every created username is returned by
`get_user_by_username`. -/
theorem create_user_seq_correct (s : Store) (reqs : List (String × String))
    (now : Int) (hnodup : (reqs.map Prod.fst).Nodup) :
    ((create_user_seq s reqs now).1.map (fun u => u.id) =
      idRange (pyMaxD (s.users.map (fun u => u.id)) 0) reqs.length) ∧
    ((create_user_seq s reqs now).2.users =
      s.users ++ (create_user_seq s reqs now).1) ∧
    (s.users = [] →
      (create_user_seq s reqs now).1.map (fun u => u.id) =
        idRange 0 reqs.length) ∧
    List.Chain' (fun a b => b = a + 1)
      ((create_user_seq s reqs now).1.map (fun u => u.id)) ∧
    ((create_user_seq s reqs now).1.map (fun u => u.id)).Nodup ∧
    (∀ name ∈ reqs.map Prod.fst, ∃ r,
      get_user_by_username (create_user_seq s reqs now).2 name = some r ∧
      r.username = name) := by
  obtain ⟨h1, h2⟩ := create_user_seq_ids_users reqs s now
  refine ⟨h1, h2, ?_, ?_, ?_, ?_⟩
  · intro hempty
    rw [h1, hempty]
    rfl
  · rw [h1]; exact chain'_idRange reqs.length _
  · rw [h1]; exact nodup_idRange _ reqs.length
  · intro name hname
    have husers : name ∈ (create_user_seq s reqs now).1.map
        (fun u => u.username) := by
      rw [create_user_seq_usernames]
      exact hname
    obtain ⟨x, hx, hxn⟩ := List.mem_map.mp husers
    apply find_username_of_mem
    exact ⟨x, by rw [h2]; exact List.mem_append_right _ hx, hxn⟩

/-- Witness for C1: from an empty store, creating "alice" then "bob"
yields ids `[1, 2]` and both usernames are findable. -/
theorem create_user_seq_correct_witness :
    ((create_user_seq ⟨[], []⟩ [("alice", "h1"), ("bob", "h2")] 0).1.map
        (fun u => u.id) = [1, 2]) ∧
    (∀ name ∈ [("alice", "h1"), ("bob", "h2")].map Prod.fst, ∃ r,
      get_user_by_username
          (create_user_seq ⟨[], []⟩ [("alice", "h1"), ("bob", "h2")] 0).2
          name = some r ∧
      r.username = name) := by
  have h := create_user_seq_correct ⟨[], []⟩
    [("alice", "h1"), ("bob", "h2")] 0 (by decide)
  exact ⟨(h.2.2.1 rfl).trans (by decide), h.2.2.2.2.2⟩

/-- The claim that `get_chat_history` truncates to the *first `limit`
entries* for every limit is false on the code at a negative limit: with
two stored messages and `limit = -1`, the Python slice `rows[:-1]` keeps
the first message instead of taking first `-1` (i.e. zero) entries. -/
theorem get_chat_history_negative_limit_cex :
    get_chat_history
        ⟨[], [⟨1, 1, "user", "a", 10⟩, ⟨2, 1, "assistant", "b", 11⟩]⟩ 1
        (-1) = [⟨1, 1, "user", "a", 10⟩] ∧
    listChatHistorySpec
        ⟨[], [⟨1, 1, "user", "a", 10⟩, ⟨2, 1, "assistant", "b", 11⟩]⟩ 1
        (-1) = [] ∧
    get_chat_history
        ⟨[], [⟨1, 1, "user", "a", 10⟩, ⟨2, 1, "assistant", "b", 11⟩]⟩ 1
        (-1) ≠
      listChatHistorySpec
        ⟨[], [⟨1, 1, "user", "a", 10⟩, ⟨2, 1, "assistant", "b", 11⟩]⟩ 1
        (-1) := by
  refine ⟨?_, ?_, ?_⟩ <;> decide

/-- C2 (amended): for every store state, user_id and **non-negative**
limit, `get_chat_history` returns exactly the stored chat messages whose
`user_id` equals the argument — never an entry with a different
`user_id` — sorted ascending by `(created_at, id)` and truncated to the
first `limit` entries after sorting (the oldest `limit` messages); a
negative limit instead drops the last `-limit` entries, per Python slice
semantics. -/
theorem get_chat_history_spec (s : Store) (uid limit : Int)
    (hlim : 0 ≤ limit) :
    get_chat_history s uid limit = listChatHistorySpec s uid limit ∧
    (∀ r ∈ get_chat_history s uid limit, r.user_id = uid ∧ r ∈ s.chats) ∧
    List.Sorted chatLE (get_chat_history s uid limit) ∧
    ((s.chats.filter (fun r => r.user_id == uid)).length ≤ limit.toNat →
      (get_chat_history s uid limit).Perm
        (s.chats.filter (fun r => r.user_id == uid))) := by
  have heq : get_chat_history s uid limit = listChatHistorySpec s uid limit := by
    simp [get_chat_history, listChatHistorySpec, pySlice, not_lt.mpr hlim]
  refine ⟨heq, ?_, ?_, ?_⟩
  · intro r hr
    rw [heq] at hr
    have hsorted := List.mem_of_mem_take hr
    have hfil : r ∈ s.chats.filter (fun x => x.user_id == uid) :=
      (List.mem_insertionSort chatLE).mp hsorted
    have h1 := List.of_mem_filter hfil
    have h2 := List.mem_of_mem_filter hfil
    exact ⟨by simpa using h1, h2⟩
  · rw [heq]
    unfold listChatHistorySpec
    exact List.Pairwise.sublist (List.take_sublist _ _)
      (List.sorted_insertionSort chatLE _)
  · intro hle
    rw [heq]
    unfold listChatHistorySpec
    rw [List.take_of_length_le
      (by rw [List.length_insertionSort]; exact hle)]
    exact List.perm_insertionSort chatLE _

/-- Witness for C2 (amended): a concrete store holding three messages for
two users, queried for user 1 with limit 2, returns the two oldest user-1
messages in ascending order. -/
theorem get_chat_history_spec_witness :
    get_chat_history
        ⟨[], [⟨3, 1, "user", "c", 12⟩, ⟨1, 1, "user", "a", 10⟩,
          ⟨2, 9, "user", "x", 11⟩]⟩ 1 2 =
      [⟨1, 1, "user", "a", 10⟩, ⟨3, 1, "user", "c", 12⟩] ∧
    (∀ r ∈ get_chat_history
        ⟨[], [⟨3, 1, "user", "c", 12⟩, ⟨1, 1, "user", "a", 10⟩,
          ⟨2, 9, "user", "x", 11⟩]⟩ 1 2,
      r.user_id = 1) := by
  have h := get_chat_history_spec
    ⟨[], [⟨3, 1, "user", "c", 12⟩, ⟨1, 1, "user", "a", 10⟩,
      ⟨2, 9, "user", "x", 11⟩]⟩ 1 2 (by norm_num)
  refine ⟨h.1.trans (by decide), fun r hr => (h.2.1 r hr).1⟩

theorem filter_update_congr {n : Nat} (f : Fin n → ThreadState) (t : Fin n)
    (v : ThreadState) (h : (3 ≤ v.pc) ↔ (3 ≤ (f t).pc)) :
    (Finset.univ.filter fun x => 3 ≤ (Function.update f t v x).pc).card =
      (Finset.univ.filter fun x => 3 ≤ (f x).pc).card := by
  congr 1
  apply Finset.filter_congr
  intro x _
  by_cases hx : x = t
  · subst hx
    simp only [Function.update_same]
    exact h
  · simp [Function.update_noteq hx]

theorem filter_update_succ {n : Nat} (f : Fin n → ThreadState) (t : Fin n)
    (v : ThreadState) (hv : 3 ≤ v.pc) (hf : ¬ 3 ≤ (f t).pc) :
    (Finset.univ.filter fun x => 3 ≤ (Function.update f t v x).pc).card =
      (Finset.univ.filter fun x => 3 ≤ (f x).pc).card + 1 := by
  have hset : (Finset.univ.filter fun x => 3 ≤ (Function.update f t v x).pc) =
      insert t (Finset.univ.filter fun x => 3 ≤ (f x).pc) := by
    ext x
    simp only [Finset.mem_filter, Finset.mem_insert, Finset.mem_univ,
      true_and]
    by_cases hx : x = t
    · subst hx
      simp [Function.update_same, hv]
    · simp [Function.update_noteq hx, hx]
  rw [hset, Finset.card_insert_of_not_mem]
  simp [hf]

/-- Invariant of the interleaved `append_chat_message` model: the chat
table is the initial table plus one consecutively-numbered appended row
per completed write; a thread inside the critical section holds the lock;
a thread that has read but not yet written holds exactly the next id. -/
def AppendInv {n : Nat} (r0 : List CsvChatItem) (g : AppendState n) :
    Prop :=
  ∃ new : List CsvChatItem,
    g.rows = r0 ++ new ∧
    new.map (fun r => r.id) =
      idRange (pyMaxD (r0.map (fun r => r.id)) 0) new.length ∧
    new.length = writtenCount g ∧
    pyMaxD (g.rows.map (fun r => r.id)) 0 =
      pyMaxD (r0.map (fun r => r.id)) 0 + (new.length : Int) ∧
    (∀ x, (g.ts x).pc ≤ 4) ∧
    (∀ x, 1 ≤ (g.ts x).pc → (g.ts x).pc ≤ 3 → g.lock = some x) ∧
    (∀ x, (g.ts x).pc = 2 →
      (g.ts x).nid =
        pyMaxD (r0.map (fun r => r.id)) 0 + (new.length : Int) + 1)

theorem appendInv_init (n : Nat) (r0 : List CsvChatItem) (c0 : Int) :
    AppendInv r0 (appendInit n r0 c0) := by
  refine ⟨[], by simp [appendInit], rfl, ?_, ?_, ?_, ?_, ?_⟩
  · simp [writtenCount, appendInit]
  · simp [appendInit]
  · intro x
    simp [appendInit]
  · intro x h
    simp [appendInit] at h
  · intro x h
    simp [appendInit] at h

theorem appendStep_inv {n : Nat} (reqs : Fin n → Int × String × String)
    (r0 : List CsvChatItem) (g : AppendState n) (t : Fin n)
    (hinv : AppendInv r0 g) : AppendInv r0 (appendStep reqs g t) := by
  obtain ⟨new, hrows, hids, hlen, hmax, hpc4, hcs, hnid⟩ := hinv
  have hpct := hpc4 t
  have hcases : (g.ts t).pc = 0 ∨ (g.ts t).pc = 1 ∨ (g.ts t).pc = 2 ∨
      (g.ts t).pc = 3 ∨ (g.ts t).pc = 4 := by omega
  rcases hcases with hpc | hpc | hpc | hpc | hpc
  · -- acquire, or blocked when the lock is held
    cases hl : g.lock with
    | none =>
      have hstep : appendStep reqs g t =
          { g with
            lock := some t
            ts := Function.update g.ts t ⟨1, (g.ts t).nid⟩ } := by
        simp [appendStep, hpc, hl]
      rw [hstep]
      refine ⟨new, hrows, hids, ?_, hmax, ?_, ?_, ?_⟩
      · rw [hlen]
        unfold writtenCount
        exact (filter_update_congr g.ts t ⟨1, (g.ts t).nid⟩
          (by rw [hpc]; simp)).symm
      · intro x
        by_cases hx : x = t
        · subst hx; simp [Function.update_same]
        · simp only [Function.update_noteq hx]; exact hpc4 x
      · intro x h1 h3
        by_cases hx : x = t
        · subst hx; rfl
        · simp only [Function.update_noteq hx] at h1 h3
          have := hcs x h1 h3
          rw [hl] at this
          exact absurd this (by simp)
      · intro x h2
        by_cases hx : x = t
        · subst hx
          simp only [Function.update_same] at h2
          exact absurd h2 (by norm_num)
        · simp only [Function.update_noteq hx] at h2
          have := hcs x (by omega) (by omega)
          rw [hl] at this
          exact absurd this (by simp)
    | some holder =>
      have hstep : appendStep reqs g t = g := by
        simp [appendStep, hpc, hl]
      rw [hstep]
      exact ⟨new, hrows, hids, hlen, hmax, hpc4, hcs, hnid⟩
  · -- read: the lock is held by t, so the guard is true
    have hlock : g.lock = some t := hcs t (by omega) (by omega)
    have hstep : appendStep reqs g t =
        { g with
          ts := (Function.update g.ts t
            ⟨2, pyMaxD (g.rows.map (fun r => r.id)) 0 + 1⟩) } := by
      simp [appendStep, hpc, hlock]
    rw [hstep]
    refine ⟨new, hrows, hids, ?_, hmax, ?_, ?_, ?_⟩
    · rw [hlen]
      unfold writtenCount
      exact (filter_update_congr g.ts t _ (by rw [hpc]; simp)).symm
    · intro x
      by_cases hx : x = t
      · subst hx; simp [Function.update_same]
      · simp only [Function.update_noteq hx]; exact hpc4 x
    · intro x h1 h3
      by_cases hx : x = t
      · subst hx; exact hlock
      · simp only [Function.update_noteq hx] at h1 h3
        exact hcs x h1 h3
    · intro x h2
      by_cases hx : x = t
      · subst hx
        simp only [Function.update_same]
        rw [hmax]
      · simp only [Function.update_noteq hx] at h2
        have := hcs x (by omega) (by omega)
        rw [hlock] at this
        exact absurd (Option.some.inj this) (Ne.symm hx)
  · -- write: the appended row gets the id computed at the read
    have hlock : g.lock = some t := hcs t (by omega) (by omega)
    have hnidt := hnid t hpc
    have hstep : appendStep reqs g t =
        { g with
          ts := Function.update g.ts t ⟨3, (g.ts t).nid⟩
          rows := g.rows ++
            [⟨(g.ts t).nid, (reqs t).1, (reqs t).2.1, (reqs t).2.2,
              g.clock⟩]
          clock := g.clock + 1 } := by
      simp [appendStep, hpc, hlock]
    rw [hstep]
    refine ⟨new ++
      [⟨(g.ts t).nid, (reqs t).1, (reqs t).2.1, (reqs t).2.2, g.clock⟩],
      ?_, ?_, ?_, ?_, ?_, ?_, ?_⟩
    · show g.rows ++ _ = r0 ++ (new ++ _)
      rw [hrows, List.append_assoc]
    · show (new ++ _).map (fun r => r.id) = idRange _ (new ++ _).length
      rw [List.map_append, hids, List.length_append]
      show _ ++ [(g.ts t).nid] = idRange _ (new.length + 1)
      rw [idRange_concat, hnidt]
      congr 1
      simp only [Int.ofNat_eq_natCast, List.cons.injEq, and_true]
      omega
    · show (new ++ _).length = writtenCount _
      unfold writtenCount
      simp only [List.length_append, List.length_cons, List.length_nil]
      rw [filter_update_succ g.ts t _ (by norm_num) (by rw [hpc]; norm_num)]
      unfold writtenCount at hlen
      omega
    · show pyMaxD ((g.rows ++ _).map (fun r => r.id)) 0 = _
      rw [List.map_append]
      show pyMaxD (g.rows.map (fun r => r.id) ++ [(g.ts t).nid]) 0 = _
      rw [pyMaxD_concat]
      rcases eq_or_ne (g.rows.map (fun r => r.id)) [] with h0 | h0
      · have hgrows : g.rows = [] := List.map_eq_nil_iff.mp h0
        rw [hrows] at hgrows
        have hr0 : r0 = [] := (List.append_eq_nil.mp hgrows).1
        have hnew : new = [] := (List.append_eq_nil.mp hgrows).2
        rw [h0, hnidt, hnew, hr0]
        simp [pyMaxD]
      · rw [pyMaxD_ne_nil h0 ((g.ts t).nid) 0, hmax, hnidt]
        rw [max_eq_right (by omega)]
        simp only [List.length_append, List.length_cons, List.length_nil]
        push_cast
        ring
    · intro x
      by_cases hx : x = t
      · subst hx; simp [Function.update_same]
      · simp only [Function.update_noteq hx]; exact hpc4 x
    · intro x h1 h3
      by_cases hx : x = t
      · subst hx; exact hlock
      · simp only [Function.update_noteq hx] at h1 h3
        exact hcs x h1 h3
    · intro x h2
      by_cases hx : x = t
      · subst hx
        simp only [Function.update_same] at h2
        exact absurd h2 (by norm_num)
      · simp only [Function.update_noteq hx] at h2
        have := hcs x (by omega) (by omega)
        rw [hlock] at this
        exact absurd (Option.some.inj this) (Ne.symm hx)
  · -- release
    have hlock : g.lock = some t := hcs t (by omega) (by omega)
    have hstep : appendStep reqs g t =
        { g with
          lock := none
          ts := Function.update g.ts t ⟨4, (g.ts t).nid⟩ } := by
      simp [appendStep, hpc, hlock]
    rw [hstep]
    refine ⟨new, hrows, hids, ?_, hmax, ?_, ?_, ?_⟩
    · rw [hlen]
      unfold writtenCount
      exact (filter_update_congr g.ts t _ (by rw [hpc]; simp)).symm
    · intro x
      by_cases hx : x = t
      · subst hx; simp [Function.update_same]
      · simp only [Function.update_noteq hx]; exact hpc4 x
    · intro x h1 h3
      by_cases hx : x = t
      · subst hx
        simp only [Function.update_same] at h1 h3
        omega
      · simp only [Function.update_noteq hx] at h1 h3
        have := hcs x h1 h3
        rw [hlock] at this
        exact absurd (Option.some.inj this).symm hx
    · intro x h2
      by_cases hx : x = t
      · subst hx
        simp only [Function.update_same] at h2
        exact absurd h2 (by norm_num)
      · simp only [Function.update_noteq hx] at h2
        have := hcs x (by omega) (by omega)
        rw [hlock] at this
        exact absurd (Option.some.inj this) (Ne.symm hx)
  · -- already finished: no step
    have hstep : appendStep reqs g t = g := by
      simp [appendStep, hpc]
    rw [hstep]
    exact ⟨new, hrows, hids, hlen, hmax, hpc4, hcs, hnid⟩

theorem appendRun_inv {n : Nat} (reqs : Fin n → Int × String × String)
    (r0 : List CsvChatItem) (g : AppendState n) (hinv : AppendInv r0 g) :
    ∀ sched : List (Fin n), AppendInv r0 (appendRun reqs g sched) := by
  intro sched
  induction sched generalizing g with
  | nil => exact hinv
  | cons a rest ih => exact ih _ (appendStep_inv reqs r0 g a hinv)

/-- C8: for `n` concurrent callers of `append_chat_message` against the
same store — any interleaving of their micro-steps permitted by the
process-wide lock (each caller holds the lock from before its table read
until after its row write) — a completed run appends exactly `n` rows
whose ids are the consecutive range `m + 1, ..., m + n` above the prior
maximum `m`: `n` distinct, contiguous ids with no duplicate and no skip.
-/
theorem append_chat_message_concurrent_ids (n : Nat)
    (reqs : Fin n → Int × String × String) (r0 : List CsvChatItem)
    (c0 : Int) (sched : List (Fin n))
    (hdone : ∀ t,
      ((appendRun reqs (appendInit n r0 c0) sched).ts t).pc = 4) :
    (appendRun reqs (appendInit n r0 c0) sched).rows.length =
      r0.length + n ∧
    ((appendRun reqs (appendInit n r0 c0) sched).rows.drop r0.length).map
        (fun r => r.id) =
      idRange (pyMaxD (r0.map (fun r => r.id)) 0) n ∧
    (((appendRun reqs (appendInit n r0 c0) sched).rows.drop r0.length).map
        (fun r => r.id)).Nodup ∧
    List.Chain' (fun a b => b = a + 1)
      (((appendRun reqs (appendInit n r0 c0) sched).rows.drop
        r0.length).map (fun r => r.id)) := by
  obtain ⟨new, hrows, hids, hlen, hmax, hpc4, hcs, hnid⟩ :=
    appendRun_inv reqs r0 _ (appendInv_init n r0 c0) sched
  have hwc : writtenCount (appendRun reqs (appendInit n r0 c0) sched) = n := by
    unfold writtenCount
    have hall : (Finset.univ.filter fun t =>
        3 ≤ ((appendRun reqs (appendInit n r0 c0) sched).ts t).pc) =
        Finset.univ := by
      apply Finset.filter_true_of_mem
      intro x _
      rw [hdone x]
      norm_num
    rw [hall, Finset.card_univ, Fintype.card_fin]
  have hlen' : new.length = n := by rw [hlen, hwc]
  have hdrop : (appendRun reqs (appendInit n r0 c0) sched).rows.drop
      r0.length = new := by
    rw [hrows]
    exact List.drop_left r0 new
  refine ⟨?_, ?_, ?_, ?_⟩
  · rw [hrows, List.length_append, hlen']
  · rw [hdrop, hids, hlen']
  · rw [hdrop, hids, hlen']
    exact nodup_idRange _ n
  · rw [hdrop, hids, hlen']
    exact chain'_idRange n _

/-- Witness for C8: two concurrent callers, scheduled so the second
repeatedly attempts to acquire the lock while the first holds it, finish
with exactly the two rows `id = 1` and `id = 2`. -/
theorem append_chat_message_concurrent_ids_witness :
    (∀ t : Fin 2, ((appendRun (fun _ => (7, "user", "hi"))
        (appendInit 2 [] 0) [0, 1, 0, 1, 0, 1, 0, 1, 1, 1, 1]).ts t).pc =
      4) ∧
    ((appendRun (fun _ => (7, "user", "hi"))
        (appendInit 2 [] 0) [0, 1, 0, 1, 0, 1, 0, 1, 1, 1, 1]).rows.drop
          0).map (fun r => r.id) = [1, 2] := by
  have hdone : ∀ t : Fin 2, ((appendRun (fun _ => (7, "user", "hi"))
      (appendInit 2 [] 0) [0, 1, 0, 1, 0, 1, 0, 1, 1, 1, 1]).ts t).pc =
      4 := by decide
  have h := append_chat_message_concurrent_ids 2 (fun _ => (7, "user", "hi"))
    [] 0 [0, 1, 0, 1, 0, 1, 0, 1, 1, 1, 1] hdone
  exact ⟨hdone, (h.2.1).trans (by decide)⟩

end InterviewHelper
